import Mathlib

/-!
Verification of the NeuralBoidTraining2 core against its specification.

The TypeScript source is shallowly embedded over `ℝ` (JS numbers are modelled as
real numbers; floating-point rounding is out of scope).  Randomness
(`Math.random()`) is modelled by an explicit draw sequence `rng : ℕ → ℝ`
together with a running draw index, consumed in exactly the order the source
consumes its draws.  The embedded functions follow the richest variant of each
module: the first `Brain`/`Level` classes of `Brain.ts` (the ones with
`isOutputLayer`), `FitnessCalculator.ts`, the second `World` class of
`World.ts`, and the editable-track `isPointOnTrack` of `Track.ts`
(lines 507-542), with the constants of `constants.ts`.
-/

noncomputable section

/-- A 2D point `{x, y}`. -/
structure Pt where
  x : ℝ
  y : ℝ

/-- One layer of the network (`Level` in `Brain.ts`).  The source also keeps
`inputs`/`outputs` scratch arrays; they are fully overwritten by every
`feedForward` call before being read, so they carry no state and are omitted.
`weights` has one row per input (row length = output count), `biases` has one
entry per output. -/
structure Level where
  weights : List (List ℝ)
  biases : List ℝ
  isOutputLayer : Bool

/-- Embedding of `Brain` from `Brain.ts`: an ordered list of levels. -/
structure Brain where
  levels : List Level

/-- Placeholder level used for total list access where the source would hit a
JavaScript `undefined`. -/
def dummyLevel : Level := ⟨[], [], false⟩

/-- The logistic sigmoid `1 / (1 + Math.exp(-sum))` used for hidden layers. -/
def sigmoid (s : ℝ) : ℝ := 1 / (1 + Real.exp (-s))

/-- Embedding of `Level.feedForward` (`Brain.ts` lines 101-123): for each output `i`,
`sum = Σ_j inputs[j] * weights[j][i] + biases[i]`, then `tanh` on the output
layer and sigmoid on hidden layers.  The source loops `j` over
`level.inputs.length`, which equals `level.weights.length` by construction. -/
def Level.feedForward (givenInputs : List ℝ) (level : Level) : List ℝ :=
  (List.range level.biases.length).map fun i =>
    let sum := (∑ j ∈ Finset.range level.weights.length,
        givenInputs.getD j 0 * (level.weights.getD j []).getD i 0) +
      level.biases.getD i 0
    if level.isOutputLayer then Real.tanh sum else sigmoid sum

/-- Embedding of `Brain.feedForward` (`Brain.ts` lines 29-35): propagate through the levels
in order.  The source starts from `levels[0]`, so it requires a non-empty
level list; the fold below agrees with it on every non-empty list. -/
def Brain.feedForward (givenInputs : List ℝ) (brain : Brain) : List ℝ :=
  brain.levels.foldl (fun outputs level => Level.feedForward outputs level) givenInputs

/-- Input width of the whole brain: the first level's input count. -/
def Brain.inputWidth (brain : Brain) : ℕ :=
  (brain.levels.headD dummyLevel).weights.length

/-- Output width of the whole brain: the last level's output count. -/
def Brain.outputWidth (brain : Brain) : ℕ :=
  (brain.levels.getLastD dummyLevel).biases.length

/-- Embedding of `Brain.gaussianRandom` (`Brain.ts` lines 38-42), Box-Muller from two
uniform draws `u` and `v`. -/
def gaussianRandom (u v : ℝ) : ℝ :=
  Real.sqrt (-2 * Real.log u) * Real.cos (2 * Real.pi * v)

/-- Embedding of `Math.max(-2, Math.min(2, w))`, the clamp back into the init range. -/
def clamp2 (w : ℝ) : ℝ := max (-2) (min 2 w)

/-- Mutation of a single weight or bias (`Level.mutate` body, `Brain.ts`
lines 140-154): one draw decides whether to mutate, a second selects among a
Gaussian nudge (two further draws), a medium uniform nudge (one draw), or a
full re-randomization (one draw).  Returns the new value and the next unused
draw index. -/
def mutateValue (mutationRate : ℝ) (rng : ℕ → ℝ) (k : ℕ) (w : ℝ) : ℝ × ℕ :=
  if rng k < mutationRate then
    let r := rng (k + 1)
    if r < 0.4 then
      (clamp2 (w + gaussianRandom (rng (k + 2)) (rng (k + 3)) * 0.3), k + 4)
    else if r < 0.75 then
      (clamp2 (w + (rng (k + 2) * 2 - 1) * 0.8), k + 3)
    else
      (rng (k + 2) * 4 - 2, k + 3)
  else
    (w, k + 1)

/-- Mutate the entries of one list in order, threading the draw index. -/
def mutateList (mutationRate : ℝ) (rng : ℕ → ℝ) : ℕ → List ℝ → List ℝ × ℕ
  | k, [] => ([], k)
  | k, w :: ws =>
    let p := mutateValue mutationRate rng k w
    let rest := mutateList mutationRate rng p.2 ws
    (p.1 :: rest.1, rest.2)

/-- Mutate a weight matrix row by row, threading the draw index. -/
def mutateMatrix (mutationRate : ℝ) (rng : ℕ → ℝ) : ℕ → List (List ℝ) → List (List ℝ) × ℕ
  | k, [] => ([], k)
  | k, row :: rows =>
    let p := mutateList mutationRate rng k row
    let rest := mutateMatrix mutationRate rng p.2 rows
    (p.1 :: rest.1, rest.2)

/-- Embedding of `Level.mutate` (`Brain.ts` lines 136-173): weights first, then biases. -/
def Level.mutate (mutationRate : ℝ) (rng : ℕ → ℝ) (k : ℕ) (level : Level) : Level × ℕ :=
  let wm := mutateMatrix mutationRate rng k level.weights
  let bm := mutateList mutationRate rng wm.2 level.biases
  (⟨wm.1, bm.1, level.isOutputLayer⟩, bm.2)

/-- Thread `Level.mutate` over a level list in order. -/
def mutateLevels (mutationRate : ℝ) (rng : ℕ → ℝ) : ℕ → List Level → List Level × ℕ
  | k, [] => ([], k)
  | k, level :: rest =>
    let p := Level.mutate mutationRate rng k level
    let r := mutateLevels mutationRate rng p.2 rest
    (p.1 :: r.1, r.2)

/-- Embedding of `Brain.mutate` (`Brain.ts` lines 52-56): mutate every level in order. -/
def Brain.mutate (mutationRate : ℝ) (rng : ℕ → ℝ) (k : ℕ) (brain : Brain) : Brain × ℕ :=
  let p := mutateLevels mutationRate rng k brain.levels
  (⟨p.1⟩, p.2)

/-- Single-point crossover of one row: for column `j` of a row at/after the
crossover point the source copies `parent2.weights[i][j]`. -/
def spRowCopy (p2row row : List ℝ) : List ℝ :=
  (List.range row.length).map fun j => p2row.getD j 0

/-- Single-point crossover of the weight matrix (`Brain.ts` lines 184-190):
rows at/after the crossover point are copied from parent 2. -/
def spMat (point : ℕ) : ℕ → List (List ℝ) → List (List ℝ) → List (List ℝ)
  | _, [], _ => []
  | i, row :: rows, p2 =>
    (if point ≤ i then spRowCopy (p2.headD []) row else row) ::
      spMat point (i + 1) rows p2.tail

/-- Single-point crossover of the bias vector (`Brain.ts` lines 192-196). -/
def spVec (point : ℕ) : ℕ → List ℝ → List ℝ → List ℝ
  | _, [], _ => []
  | i, b :: bs, p2 =>
    (if point ≤ i then p2.headD 0 else b) :: spVec point (i + 1) bs p2.tail

/-- Uniform crossover of one value list (`Brain.ts` lines 199-211): each entry
is copied from parent 2 with one uniform draw.  Returns the next draw index. -/
def unifVec (rng : ℕ → ℝ) : ℕ → List ℝ → List ℝ → List ℝ × ℕ
  | k, [], _ => ([], k)
  | k, b :: bs, p2 =>
    let b' := if rng k < 0.5 then p2.headD 0 else b
    let rest := unifVec rng (k + 1) bs p2.tail
    (b' :: rest.1, rest.2)

/-- Uniform crossover of the weight matrix, row by row. -/
def unifMat (rng : ℕ → ℝ) : ℕ → List (List ℝ) → List (List ℝ) → List (List ℝ) × ℕ
  | k, [], _ => ([], k)
  | k, row :: rows, p2 =>
    let r := unifVec rng k row (p2.headD [])
    let rest := unifMat rng r.2 rows p2.tail
    (r.1 :: rest.1, rest.2)

/-- Embedding of `Level.crossover` (`Brain.ts` lines 176-215): one draw picks the mode;
single-point mode draws a crossover point `Math.floor(Math.random() * rows)`,
uniform mode draws once per weight and per bias. -/
def Level.crossover (parent1 parent2 : Level) (rng : ℕ → ℝ) (k : ℕ) : Level × ℕ :=
  if rng k < 0.5 then
    let point := ⌊rng (k + 1) * (parent1.weights.length : ℝ)⌋₊
    (⟨spMat point 0 parent1.weights parent2.weights,
      spVec point 0 parent1.biases parent2.biases, parent1.isOutputLayer⟩, k + 2)
  else
    let wm := unifMat rng (k + 1) parent1.weights parent2.weights
    let bm := unifVec rng wm.2 parent1.biases parent2.biases
    (⟨wm.1, bm.1, parent1.isOutputLayer⟩, bm.2)

/-- Crossover of the level lists in order.  The source indexes
`parent2.levels[i]` and would hit `undefined` past the end of parent 2's list;
the embedding substitutes `dummyLevel` there (the claims only use parents of
equal shape). -/
def crossLevels (rng : ℕ → ℝ) : ℕ → List Level → List Level → List Level × ℕ
  | k, [], _ => ([], k)
  | k, l :: ls, p2 =>
    let c := Level.crossover l (p2.headD dummyLevel) rng k
    let rest := crossLevels rng c.2 ls p2.tail
    (c.1 :: rest.1, rest.2)

/-- Embedding of `Brain.crossover` (`Brain.ts` lines 59-65): clone parent 1, then replace
each level by `Level.crossover` of the two parents' levels. -/
def Brain.crossover (parent1 parent2 : Brain) (rng : ℕ → ℝ) (k : ℕ) : Brain × ℕ :=
  let p := crossLevels rng k parent1.levels parent2.levels
  (⟨p.1⟩, p.2)

/-- Embedding of `Level.randomize` draws (`Brain.ts` lines 89-99): `Math.random() * 4 - 2`,
`n` consecutive draws starting at index `k`. -/
def randList (rng : ℕ → ℝ) (k n : ℕ) : List ℝ :=
  (List.range n).map fun j => rng (k + j) * 4 - 2

/-- A freshly constructed random `Level` (`Brain.ts` lines 75-99): weights row
by row, then biases, consuming `inC * outC + outC` draws. -/
def Level.new (rng : ℕ → ℝ) (k inC outC : ℕ) (isOut : Bool) : Level × ℕ :=
  (⟨(List.range inC).map fun i => randList rng (k + i * outC) outC,
    randList rng (k + inC * outC) outC, isOut⟩, k + inC * outC + outC)

/-- Hidden levels of a fresh `Brain` (`Brain.ts` constructor lines 14-23):
one level per hidden size, chaining the widths. -/
def newHiddenLevels (rng : ℕ → ℝ) : ℕ → ℕ → List ℕ → List Level × ℕ × ℕ
  | k, inC, [] => ([], k, inC)
  | k, inC, h :: hs =>
    let p := Level.new rng k inC h false
    let rest := newHiddenLevels rng p.2 h hs
    (p.1 :: rest.1, rest.2)

/-- A freshly constructed random `Brain` (`Brain.ts` constructor lines 4-27):
hidden levels, then a final level with the tanh activation flag. -/
def Brain.new (rng : ℕ → ℝ) (k inputs : ℕ) (hiddenLayers : List ℕ) (outputs : ℕ) :
    Brain × ℕ :=
  let hid := newHiddenLevels rng k inputs hiddenLayers
  let last := Level.new rng hid.2.1 hid.2.2 outputs true
  (⟨hid.1 ++ [last.1]⟩, last.2)

/-- Embedding of `NEURAL_NETWORK` of `constants.ts`: 11 inputs, hidden `[16, 8]`, 3 outputs. -/
def NEURAL_NETWORK_INPUT_COUNT : ℕ := 11

/-- Hidden layer sizes of `NEURAL_NETWORK`. -/
def NEURAL_NETWORK_HIDDEN_LAYERS : List ℕ := [16, 8]

/-- Output count of `NEURAL_NETWORK`. -/
def NEURAL_NETWORK_OUTPUT_COUNT : ℕ := 3

/-- The brains created by `World.spawnGeneration` (`World.ts` lines 313-353),
index `i` counting from `start`, `n` vehicles still to create.  Elite slots
(`i < eliteCount`) clone `parentBrains[i]`; the rest crossover two uniformly
drawn parents and mutate the child.  Out-of-range parent access is a
JavaScript `undefined` whose `.clone()` throws, so the embedding returns
`none` there (the spawn aborts with no full population). -/
def spawnFrom (eliteCount : ℕ) (mutationRate : ℝ) (parents : List Brain)
    (rng : ℕ → ℝ) : ℕ → ℕ → ℕ → Option (List Brain × ℕ)
  | _, 0, k => some ([], k)
  | i, n + 1, k =>
    if i < eliteCount then
      match parents[i]? with
      | none => none
      | some b =>
        match spawnFrom eliteCount mutationRate parents rng (i + 1) n k with
        | none => none
        | some rest => some (b :: rest.1, rest.2)
    else
      match parents[⌊rng k * (parents.length : ℝ)⌋₊]?,
            parents[⌊rng (k + 1) * (parents.length : ℝ)⌋₊]? with
      | some p1, some p2 =>
        let c := Brain.crossover p1 p2 rng (k + 2)
        let m := Brain.mutate mutationRate rng c.2 c.1
        match spawnFrom eliteCount mutationRate parents rng (i + 1) n m.2 with
        | none => none
        | some rest => some (m.1 :: rest.1, rest.2)
      | _, _ => none

/-- The random first-generation brains (`World.ts` lines 320-325): each
`Vehicle` constructed without a brain builds a fresh random `Brain` with the
`NEURAL_NETWORK` dimensions. -/
def spawnRandom (rng : ℕ → ℝ) : ℕ → ℕ → List Brain × ℕ
  | 0, k => ([], k)
  | n + 1, k =>
    let b := Brain.new rng k NEURAL_NETWORK_INPUT_COUNT
      NEURAL_NETWORK_HIDDEN_LAYERS NEURAL_NETWORK_OUTPUT_COUNT
    let rest := spawnRandom rng n b.2
    (b.1 :: rest.1, rest.2)

/-- Embedding of `World.spawnGeneration` (`World.ts` lines 313-353), restricted to the
brains of the vehicles it creates.  An absent or empty parent list spawns
`vehicleCount` fresh random brains; otherwise elites then bred children. -/
def spawnGeneration (vehicleCount eliteCount : ℕ) (mutationRate : ℝ)
    (parents : List Brain) (rng : ℕ → ℝ) (k : ℕ) : Option (List Brain × ℕ) :=
  if parents.length = 0 then
    some (spawnRandom rng vehicleCount k)
  else
    spawnFrom eliteCount mutationRate parents rng 0 vehicleCount k

/-- The per-agent telemetry of `Vehicle` (`Vehicle.ts` lines 152-164) read and
written by `FitnessCalculator`. -/
structure VehicleStats where
  trackProgress : ℝ
  framesWithoutProgress : ℝ
  centerDeviation : ℝ
  timeAlive : ℝ
  smoothness : ℝ
  distanceTraveled : ℝ
  lapsCompleted : ℝ
  previousAngularVelocity : ℝ

/-- Embedding of `FITNESS_WEIGHTS` of `constants.ts`. -/
structure FitnessWeights where
  trackProgress : ℝ
  centerDeviation : ℝ
  survival : ℝ
  speed : ℝ
  smoothness : ℝ

/-- The concrete weight values of `constants.ts` lines 41-47. -/
def FITNESS_WEIGHTS : FitnessWeights :=
  ⟨100, 50, 50, 10, 20⟩

/-- Embedding of `FitnessCalculator.calculate` (`FitnessCalculator.ts` lines 10-41):
`progress^1.5 * w_progress + centerScore + speedScore + smoothScore +
survivalScore - stagnationPenalty`, clamped at 0.  `Math.pow(x, 1.5)` is real
exponentiation and `Math.pow(x, 2)` on the non-negative stagnant time is the
square. -/
def calculate (v : VehicleStats) : ℝ :=
  let progressScore := v.trackProgress ^ (1.5 : ℝ) * FITNESS_WEIGHTS.trackProgress
  let stagnationPenalty :=
    if 180 < v.framesWithoutProgress then
      ((v.framesWithoutProgress - 180) / 60) ^ 2 * 500
    else 0
  let avgDeviation := v.centerDeviation / max 1 v.timeAlive
  let centerScore := max 0 (FITNESS_WEIGHTS.centerDeviation - avgDeviation * 2)
  let speedScore := v.distanceTraveled / max 1 v.timeAlive * FITNESS_WEIGHTS.speed
  let smoothScore := v.smoothness * FITNESS_WEIGHTS.smoothness
  let survivalScore := min (v.timeAlive * 0.5) 10
  max 0 (progressScore + centerScore + speedScore + smoothScore + survivalScore -
    stagnationPenalty)

/-- The nearest-waypoint linear scan of `FitnessCalculator.updateTrackProgress`
(`FitnessCalculator.ts` lines 49-65): Euclidean distances, strict improvement,
so the first of equal distances wins.  `pos` is the vehicle position; the
accumulator starts from the first path point (the source seeds `minDist` with
`Infinity`, which the first finite distance always beats). -/
def nearestAux (pos : Pt) : List Pt → ℕ → ℝ → ℕ → ℝ × ℕ
  | [], _, minDist, nearestIndex => (minDist, nearestIndex)
  | p :: ps, i, minDist, nearestIndex =>
    let dx := pos.x - p.x
    let dy := pos.y - p.y
    let dist := Real.sqrt (dx * dx + dy * dy)
    if dist < minDist then nearestAux pos ps (i + 1) dist i
    else nearestAux pos ps (i + 1) minDist nearestIndex

/-- The `(minDist, nearestIndex)` pair found by the scan over a non-empty
path. -/
def nearestScan (pos : Pt) : List Pt → ℝ × ℕ
  | [] => (0, 0)
  | p :: ps =>
    let dx := pos.x - p.x
    let dy := pos.y - p.y
    nearestAux pos ps 1 (Real.sqrt (dx * dx + dy * dy)) 0

/-- Embedding of `FitnessCalculator.updateTrackProgress` (`FitnessCalculator.ts` lines
46-98) as a state transformer on the vehicle telemetry; `pos` and `angvelRaw`
stand for `vehicle.body.translation()` and `vehicle.body.angvel()`. -/
def updateTrackProgress (v : VehicleStats) (pos : Pt) (angvelRaw : ℝ)
    (path : List Pt) : VehicleStats :=
  if path.length = 0 then v
  else
    let scan := nearestScan pos path
    let minDist := scan.1
    let nearestIndex := scan.2
    let laps :=
      if v.trackProgress > (path.length : ℝ) * 0.9 ∧
          (nearestIndex : ℝ) < (path.length : ℝ) * 0.1 then
        v.lapsCompleted + 1
      else v.lapsCompleted
    let currentProgress := (nearestIndex : ℝ) + laps * (path.length : ℝ)
    let progress := max v.trackProgress currentProgress
    let fwp :=
      if progress ≤ v.trackProgress + 0.1 then v.framesWithoutProgress + 1 else 0
    let angVel := |angvelRaw|
    { v with
      lapsCompleted := laps
      trackProgress := progress
      framesWithoutProgress := fwp
      centerDeviation := v.centerDeviation + minDist
      timeAlive := v.timeAlive + 1 / 60
      smoothness := v.smoothness + max 0 (1 - |angVel - v.previousAngularVelocity|)
      previousAngularVelocity := angVel }

/-- Embedding of `GENERATION_CONFIG.NO_IMPROVEMENT_TIMEOUT` of `constants.ts` (seconds). -/
def NO_IMPROVEMENT_TIMEOUT : ℝ := 15

/-- The `World` state consulted by the end-of-generation decision of
`World.update` (`World.ts` lines 355-424). -/
structure WorldState where
  simulationRunning : Bool
  isEditing : Bool
  generationTimer : ℝ
  generationTime : ℝ
  vehicleCount : ℕ
  lastBestFitness : ℝ
  lastImprovementTime : ℝ

/-- The best-fitness scan of `World.update` (`World.ts` lines 388-398):
`bestFitness` starts at `-1` and is raised by every alive vehicle whose
fitness strictly exceeds it.  Each list entry is an (alive, fitness) pair of
one vehicle after its per-tick update. -/
def bestFitnessScan (vehicles : List (Bool × ℝ)) : ℝ :=
  vehicles.foldl (fun acc vf => if vf.1 = true ∧ acc < vf.2 then vf.2 else acc) (-1)

/-- Number of alive vehicles (`this.vehicles.filter(v => v.isAlive).length`). -/
def aliveCount (vehicles : List (Bool × ℝ)) : ℕ :=
  (vehicles.filter fun vf => vf.1).length

/-- One play-mode tick of `World.update` (`World.ts` lines 355-424), reduced
to the generation-lifecycle bookkeeping: the timer advance, the improvement
tracking, and the end-of-generation decision.  Per-vehicle physics and
telemetry updates are abstracted into the post-update `(alive, fitness)`
pairs.  Returns the updated state and whether `nextGeneration()` was called
this tick. -/
def worldTick (s : WorldState) (vehicles : List (Bool × ℝ)) : WorldState × Bool :=
  if s.simulationRunning = false then (s, false)
  else if s.isEditing = true then (s, false)
  else
    let timer := s.generationTimer + 1 / 60
    let best := bestFitnessScan vehicles
    let improved := s.lastBestFitness < best
    let lastBest := if improved then best else s.lastBestFitness
    let lastImp := if improved then timer else s.lastImprovementTime
    let alive := aliveCount vehicles
    let alivePercentage := (alive : ℝ) / (s.vehicleCount : ℝ)
    let timeUp := s.generationTime ≤ timer
    let noImprovementTime := timer - lastImp
    let stagnant := NO_IMPROVEMENT_TIMEOUT < noImprovementTime
    let mostDead := alivePercentage ≤ 0.25
    ({ s with
        generationTimer := timer
        lastBestFitness := lastBest
        lastImprovementTime := lastImp },
      if alive = 0 ∨ timeUp ∨ stagnant ∨ mostDead then true else false)

/-- Embedding of `Number.MAX_VALUE`, the seed of the running minimum in `isPointOnTrack`. -/
def MAX_VALUE : ℝ := 2 ^ 1024 - 2 ^ 971

/-- The closed-loop segment list of a track path: segment `i` joins
`path[i]` to `path[(i + 1) % path.length]`. -/
def segsOf (path : List Pt) : List (Pt × Pt) :=
  (List.range path.length).map fun i =>
    (path.getD i ⟨0, 0⟩, path.getD ((i + 1) % path.length) ⟨0, 0⟩)

/-- The squared segment length `l2` of `isPointOnTrack`. -/
def segL2 (s : Pt × Pt) : ℝ :=
  (s.1.x - s.2.x) ^ 2 + (s.1.y - s.2.y) ^ 2

/-- The clamped point-to-segment squared distance of `isPointOnTrack`
(`Track.ts` lines 526-532), defined for segments with `l2 ≠ 0`. -/
def segSqDist (x y : ℝ) (s : Pt × Pt) : ℝ :=
  let t0 := ((x - s.1.x) * (s.2.x - s.1.x) + (y - s.1.y) * (s.2.y - s.1.y)) / segL2 s
  let t := max 0 (min 1 t0)
  let px := s.1.x + t * (s.2.x - s.1.x)
  let py := s.1.y + t * (s.2.y - s.1.y)
  (x - px) ^ 2 + (y - py) ^ 2

/-- The segment loop of `isPointOnTrack` (`Track.ts` lines 519-541): segments
of zero squared length are skipped (`continue`); otherwise the running
minimum is updated and the loop returns `true` as soon as the minimum is
within the limit; after the loop the final minimum is compared once more. -/
def onTrackAux (limitSq x y : ℝ) : List (Pt × Pt) → ℝ → Bool
  | [], minSq => if minSq ≤ limitSq then true else false
  | s :: rest, minSq =>
    if segL2 s = 0 then onTrackAux limitSq x y rest minSq
    else
      let distSq := segSqDist x y s
      let minSq' := if distSq < minSq then distSq else minSq
      if minSq' ≤ limitSq then true else onTrackAux limitSq x y rest minSq'

/-- Embedding of `Track.isPointOnTrack` of the editable variant (`Track.ts` lines 507-542).
Paths with fewer than 2 vertices report `false` immediately. -/
def isPointOnTrack (path : List Pt) (trackWidth x y : ℝ) : Bool :=
  if path.length < 2 then false
  else onTrackAux ((trackWidth / 2) * (trackWidth / 2)) x y (segsOf path) MAX_VALUE

/-- Modelled from the spec (claim wording): the squared distance from a point
to a segment, reading a zero-length segment as the point it degenerates to.
Used only to state the original form of the `isPointOnTrack` claim. -/
def specSegSqDist (x y : ℝ) (s : Pt × Pt) : ℝ :=
  if segL2 s = 0 then (x - s.1.x) ^ 2 + (y - s.1.y) ^ 2
  else segSqDist x y s

/-- Modelled from the spec (claim wording): the minimum over all path segments
of the squared point-to-segment distance (base `Number.MAX_VALUE`, below every
value the fold meets on the counterexample path). -/
def specMinSqDist (x y : ℝ) (path : List Pt) : ℝ :=
  ((segsOf path).map (specSegSqDist x y)).foldr min MAX_VALUE

/-- A concrete two-level brain (1 → 1 → 1) used to instantiate hypotheses. -/
def brainEx : Brain := ⟨[⟨[[1]], [0], false⟩, ⟨[[1]], [0], true⟩]⟩

/-- Telemetry of a freshly spawned agent: every accumulator at zero. -/
def freshStats : VehicleStats := ⟨0, 0, 0, 0, 0, 0, 0, 0⟩

/-- Telemetry of an agent with zero progress and maximal center deviation:
`centerDeviation = 25` saturates the center-adherence term
(`50 - 25 * 2 = 0`) while every other accumulator is zero. -/
def zeroFitStats : VehicleStats := ⟨0, 0, 25, 0, 0, 0, 0, 0⟩

/-- A concrete world state: running, not editing, timer 0 of 60 s, 50
vehicles, no recorded improvement. -/
def worldEx : WorldState := ⟨true, false, 0, 60, 50, 0, 0⟩

end

theorem sigmoid_nonneg (s : ℝ) : 0 ≤ sigmoid s := by
  unfold sigmoid
  positivity

theorem sigmoid_le_one (s : ℝ) : sigmoid s ≤ 1 := by
  unfold sigmoid
  rw [div_le_one (by positivity)]
  linarith [Real.exp_pos (-s)]

theorem tanh_le_one (x : ℝ) : Real.tanh x ≤ 1 := by
  rw [Real.tanh_eq_sinh_div_cosh]
  exact le_of_lt ((div_lt_one (Real.cosh_pos x)).mpr (Real.sinh_lt_cosh x))

theorem neg_one_le_tanh (x : ℝ) : -1 ≤ Real.tanh x := by
  rw [Real.tanh_eq_sinh_div_cosh, le_div_iff₀ (Real.cosh_pos x)]
  have h1 := Real.exp_pos x
  have h2 := Real.cosh_add_sinh x
  linarith

theorem Level.feedForward_length (inp : List ℝ) (l : Level) :
    (Level.feedForward inp l).length = l.biases.length := by
  simp [Level.feedForward]

theorem Level.feedForward_mem_output (l : Level) (h : l.isOutputLayer = true)
    (inp : List ℝ) (y : ℝ) (hy : y ∈ Level.feedForward inp l) : -1 ≤ y ∧ y ≤ 1 := by
  simp only [Level.feedForward, h, if_true, List.mem_map, List.mem_range] at hy
  obtain ⟨i, -, rfl⟩ := hy
  exact ⟨neg_one_le_tanh _, tanh_le_one _⟩

theorem Level.feedForward_mem_hidden (l : Level) (h : l.isOutputLayer = false)
    (inp : List ℝ) (y : ℝ) (hy : y ∈ Level.feedForward inp l) : 0 ≤ y ∧ y ≤ 1 := by
  simp only [Level.feedForward, h, if_false, Bool.false_eq_true, List.mem_map,
    List.mem_range] at hy
  obtain ⟨i, -, rfl⟩ := hy
  exact ⟨sigmoid_nonneg _, sigmoid_le_one _⟩

theorem foldl_feedForward_last (ls : List Level) (h : ls ≠ []) (acc : List ℝ) :
    ∃ z : List ℝ,
      ls.foldl (fun outputs level => Level.feedForward outputs level) acc =
        Level.feedForward z (ls.getLastD dummyLevel) := by
  induction ls generalizing acc with
  | nil => exact absurd rfl h
  | cons a t ih =>
    cases t with
    | nil => exact ⟨acc, rfl⟩
    | cons b t' =>
      obtain ⟨z, hz⟩ := ih (by simp) (Level.feedForward acc a)
      exact ⟨z, hz⟩

/-- Claim C1: on a brain whose first layer has input width `k` and a length-`k`
input, `feedForward` returns a vector of the final layer's output width; every
hidden-layer activation lies in `[0, 1]` (sigmoid) and every entry of the
final output lies in `[-1, 1]` (tanh). -/
theorem claim_C1_feedForward_dims_and_ranges (b : Brain) (hne : b.levels ≠ [])
    (hlast : (b.levels.getLastD dummyLevel).isOutputLayer = true)
    (x : List ℝ) (hx : x.length = Brain.inputWidth b) :
    (Brain.feedForward x b).length = b.outputWidth ∧
    (∀ y ∈ Brain.feedForward x b, -1 ≤ y ∧ y ≤ 1) ∧
    (∀ l ∈ b.levels, l.isOutputLayer = false →
      ∀ inp : List ℝ, ∀ y ∈ Level.feedForward inp l, 0 ≤ y ∧ y ≤ 1) := by
  obtain ⟨z, hz⟩ := foldl_feedForward_last b.levels hne x
  refine ⟨?_, ?_, ?_⟩
  · rw [Brain.feedForward, hz, Level.feedForward_length, Brain.outputWidth]
  · intro y hy
    rw [Brain.feedForward, hz] at hy
    exact Level.feedForward_mem_output _ hlast _ _ hy
  · intro l _ hflag inp y hy
    exact Level.feedForward_mem_hidden _ hflag _ _ hy

theorem claim_C1_witness :
    brainEx.levels ≠ [] ∧
    (brainEx.levels.getLastD dummyLevel).isOutputLayer = true ∧
    [(0 : ℝ)].length = brainEx.inputWidth ∧
    ((Brain.feedForward [(0 : ℝ)] brainEx).length = brainEx.outputWidth ∧
      (∀ y ∈ Brain.feedForward [(0 : ℝ)] brainEx, -1 ≤ y ∧ y ≤ 1) ∧
      (∀ l ∈ brainEx.levels, l.isOutputLayer = false →
        ∀ inp : List ℝ, ∀ y ∈ Level.feedForward inp l, 0 ≤ y ∧ y ≤ 1)) := by
  have h1 : brainEx.levels ≠ [] := by simp [brainEx]
  have h2 : (brainEx.levels.getLastD dummyLevel).isOutputLayer = true := rfl
  have h3 : [(0 : ℝ)].length = brainEx.inputWidth := rfl
  exact ⟨h1, h2, h3, claim_C1_feedForward_dims_and_ranges brainEx h1 h2 _ h3⟩

theorem mutateValue_zero (rng : ℕ → ℝ) (h : ∀ n, 0 ≤ rng n) (k : ℕ) (w : ℝ) :
    mutateValue 0 rng k w = (w, k + 1) := by
  unfold mutateValue
  rw [if_neg (not_lt.mpr (h k))]

theorem mutateList_zero (rng : ℕ → ℝ) (h : ∀ n, 0 ≤ rng n) :
    ∀ (k : ℕ) (ws : List ℝ), mutateList 0 rng k ws = (ws, k + ws.length) := by
  intro k ws
  induction ws generalizing k with
  | nil => simp [mutateList]
  | cons w ws ih =>
    simp only [mutateList, mutateValue_zero rng h, ih, List.length_cons]
    exact Prod.ext rfl (by omega)

theorem mutateMatrix_zero (rng : ℕ → ℝ) (h : ∀ n, 0 ≤ rng n) :
    ∀ (k : ℕ) (rows : List (List ℝ)), ∃ k', mutateMatrix 0 rng k rows = (rows, k') := by
  intro k rows
  induction rows generalizing k with
  | nil => exact ⟨k, rfl⟩
  | cons r rs ih =>
    obtain ⟨k', hk⟩ := ih (k + r.length)
    exact ⟨k', by simp [mutateMatrix, mutateList_zero rng h, hk]⟩

theorem Level.mutate_zero (rng : ℕ → ℝ) (h : ∀ n, 0 ≤ rng n) (k : ℕ) (l : Level) :
    (Level.mutate 0 rng k l).1 = l := by
  obtain ⟨w, bs, flag⟩ := l
  obtain ⟨k', hk⟩ := mutateMatrix_zero rng h k w
  simp [Level.mutate, hk, mutateList_zero rng h]

theorem mutateLevels_zero (rng : ℕ → ℝ) (h : ∀ n, 0 ≤ rng n) :
    ∀ (k : ℕ) (ls : List Level), (mutateLevels 0 rng k ls).1 = ls := by
  intro k ls
  induction ls generalizing k with
  | nil => simp [mutateLevels]
  | cons l ls ih =>
    simp [mutateLevels, Level.mutate_zero rng h, ih]

/-- Claim C3: `mutate(brain, 0)` is a no-op — with a mutation rate of 0 no
weight or bias of any level changes, because every per-entry draw of
`Math.random()` is at least 0 and the mutation guard is a strict `<`. -/
theorem claim_C3_mutate_zero_noop (b : Brain) (rng : ℕ → ℝ) (h : ∀ n, 0 ≤ rng n)
    (k : ℕ) : (Brain.mutate 0 rng k b).1 = b := by
  obtain ⟨ls⟩ := b
  simp [Brain.mutate, mutateLevels_zero rng h]

theorem claim_C3_witness :
    (∀ n : ℕ, 0 ≤ (fun _ : ℕ => (0 : ℝ)) n) ∧
    (Brain.mutate 0 (fun _ : ℕ => (0 : ℝ)) 0 brainEx).1 = brainEx :=
  ⟨fun _ => le_refl 0,
    claim_C3_mutate_zero_noop brainEx (fun _ => 0) (fun _ => le_refl 0) 0⟩

theorem spRowCopy_self (r : List ℝ) : spRowCopy r r = r := by
  induction r with
  | nil => rfl
  | cons a t ih =>
    unfold spRowCopy at ih ⊢
    simp only [List.length_cons, List.range_succ_eq_map, List.map_cons,
      List.map_map, List.getD_cons_zero]
    refine congrArg (a :: ·) ?_
    have heq : ((fun j => (a :: t).getD j 0) ∘ Nat.succ) = fun j => t.getD j 0 := by
      funext j
      simp
    rw [heq]
    exact ih

theorem spMat_self (point : ℕ) : ∀ (i : ℕ) (m : List (List ℝ)), spMat point i m m = m := by
  intro i m
  induction m generalizing i with
  | nil => rfl
  | cons r rs ih =>
    simp [spMat, spRowCopy_self, ih]

theorem spVec_self (point : ℕ) : ∀ (i : ℕ) (l : List ℝ), spVec point i l l = l := by
  intro i l
  induction l generalizing i with
  | nil => rfl
  | cons b bs ih =>
    simp [spVec, ih]

theorem unifVec_self (rng : ℕ → ℝ) :
    ∀ (k : ℕ) (l : List ℝ), unifVec rng k l l = (l, k + l.length) := by
  intro k l
  induction l generalizing k with
  | nil => simp [unifVec]
  | cons b bs ih =>
    simp only [unifVec, List.headD_cons, ih, List.tail_cons, ite_self,
      List.length_cons]
    exact Prod.ext rfl (by omega)

theorem unifMat_self (rng : ℕ → ℝ) :
    ∀ (k : ℕ) (m : List (List ℝ)), ∃ k', unifMat rng k m m = (m, k') := by
  intro k m
  induction m generalizing k with
  | nil => exact ⟨k, rfl⟩
  | cons r rs ih =>
    obtain ⟨k', hk⟩ := ih (k + r.length)
    exact ⟨k', by simp [unifMat, unifVec_self, hk]⟩

theorem Level.crossover_self (l : Level) (rng : ℕ → ℝ) (k : ℕ) :
    ∃ k', Level.crossover l l rng k = (l, k') := by
  obtain ⟨w, bs, flag⟩ := l
  unfold Level.crossover
  by_cases h : rng k < 0.5
  · exact ⟨k + 2, by simp [h, spMat_self, spVec_self]⟩
  · obtain ⟨k', hk⟩ := unifMat_self rng (k + 1) w
    exact ⟨k' + bs.length, by simp [h, hk, unifVec_self]⟩

theorem crossLevels_self (rng : ℕ → ℝ) :
    ∀ (k : ℕ) (ls : List Level), ∃ k', crossLevels rng k ls ls = (ls, k') := by
  intro k ls
  induction ls generalizing k with
  | nil => exact ⟨k, rfl⟩
  | cons l t ih =>
    obtain ⟨k1, hk1⟩ := Level.crossover_self l rng k
    obtain ⟨k2, hk2⟩ := ih k1
    exact ⟨k2, by simp [crossLevels, hk1, hk2]⟩

/-- Claim C4: `crossover(A, A)` is behaviorally identical to `A` — for every
random draw sequence (hence every crossover mode and index choice) the
offspring's `feedForward` agrees with `A`'s on every input, because every
copied weight or bias equals the one it replaces. -/
theorem claim_C4_crossover_self_identity (A : Brain) (rng : ℕ → ℝ) (k : ℕ)
    (x : List ℝ) :
    Brain.feedForward x (Brain.crossover A A rng k).1 = Brain.feedForward x A := by
  obtain ⟨ls⟩ := A
  obtain ⟨k', hk⟩ := crossLevels_self rng k ls
  simp [Brain.crossover, hk]

theorem spawnRandom_length (rng : ℕ → ℝ) :
    ∀ (n k : ℕ), (spawnRandom rng n k).1.length = n := by
  intro n
  induction n with
  | zero => intro k; rfl
  | succ n ih =>
    intro k
    simp [spawnRandom, ih]

theorem spawnFrom_length (eliteCount : ℕ) (mutationRate : ℝ) (parents : List Brain)
    (rng : ℕ → ℝ) (hr : ∀ n, 0 ≤ rng n ∧ rng n < 1)
    (hE : eliteCount ≤ parents.length) (hlen : 0 < parents.length) :
    ∀ (n i k : ℕ), ∃ l k',
      spawnFrom eliteCount mutationRate parents rng i n k = some (l, k') ∧
        l.length = n := by
  have hfloor : ∀ m : ℕ, ⌊rng m * (parents.length : ℝ)⌋₊ < parents.length := by
    intro m
    have h0 := (hr m).1
    have h1 := (hr m).2
    rw [Nat.floor_lt (by positivity)]
    calc rng m * (parents.length : ℝ)
        < 1 * (parents.length : ℝ) := by
          exact mul_lt_mul_of_pos_right h1 (by exact_mod_cast hlen)
      _ = (parents.length : ℝ) := one_mul _
  intro n
  induction n with
  | zero => exact fun i k => ⟨[], k, rfl, rfl⟩
  | succ n ih =>
    intro i k
    by_cases hi : i < eliteCount
    · obtain ⟨l, k', hspawn, hl⟩ := ih (i + 1) k
      refine ⟨parents[i] :: l, k', ?_, by simp [hl]⟩
      rw [spawnFrom, if_pos hi, List.getElem?_eq_getElem (lt_of_lt_of_le hi hE), hspawn]
    · have hk1 := hfloor k
      have hk2 := hfloor (k + 1)
      have h1 := List.getElem?_eq_getElem hk1
      have h2 := List.getElem?_eq_getElem hk2
      obtain ⟨l, k', hspawn, hl⟩ := ih (i + 1)
        (Brain.mutate mutationRate rng
          (Brain.crossover parents[⌊rng k * (parents.length : ℝ)⌋₊]
            parents[⌊rng (k + 1) * (parents.length : ℝ)⌋₊] rng (k + 2)).2
          (Brain.crossover parents[⌊rng k * (parents.length : ℝ)⌋₊]
            parents[⌊rng (k + 1) * (parents.length : ℝ)⌋₊] rng (k + 2)).1).2
      refine ⟨(Brain.mutate mutationRate rng
          (Brain.crossover parents[⌊rng k * (parents.length : ℝ)⌋₊]
            parents[⌊rng (k + 1) * (parents.length : ℝ)⌋₊] rng (k + 2)).2
          (Brain.crossover parents[⌊rng k * (parents.length : ℝ)⌋₊]
            parents[⌊rng (k + 1) * (parents.length : ℝ)⌋₊] rng (k + 2)).1).1 :: l,
        k', ?_, by simp [hl]⟩
      rw [spawnFrom, if_neg hi, h1, h2]
      simp only [hspawn]

/-- Claim C2 counterexample: with `populationSize = 2`, `eliteCount = 2`
(elite count not exceeding population size) and the non-empty parent list
`[brainEx]`, the elite loop reads `parentBrains[1]`, which is `undefined` —
`undefined.clone()` throws, the spawn aborts, and no generation of 2 agents is
created. -/
theorem claim_C2_counterexample :
    spawnGeneration 2 2 (1 / 10 : ℝ) [brainEx] (fun _ => 0) 0 = none := by
  simp [spawnGeneration, spawnFrom]

/-- Claim C2 (amended): whenever the parent list has at least `eliteCount`
brains — as every list passed by `nextGeneration` does — or is empty (the
initial random spawn), `spawnGeneration` creates exactly `populationSize`
agents, regardless of the elite/crossover split. -/
theorem claim_C2_spawn_population_size (vehicleCount eliteCount : ℕ)
    (mutationRate : ℝ) (parents : List Brain) (rng : ℕ → ℝ) (k : ℕ)
    (hr : ∀ n, 0 ≤ rng n ∧ rng n < 1)
    (hE : parents = [] ∨ eliteCount ≤ parents.length) :
    ∃ l k', spawnGeneration vehicleCount eliteCount mutationRate parents rng k =
        some (l, k') ∧ l.length = vehicleCount := by
  by_cases hp : parents.length = 0
  · refine ⟨(spawnRandom rng vehicleCount k).1, (spawnRandom rng vehicleCount k).2, ?_,
      spawnRandom_length rng vehicleCount k⟩
    rw [spawnGeneration, if_pos hp]
  · rw [spawnGeneration, if_neg hp]
    have hE' : eliteCount ≤ parents.length := by
      rcases hE with h | h
      · exact absurd (by simp [h]) hp
      · exact h
    exact spawnFrom_length eliteCount mutationRate parents rng hr hE'
      (Nat.pos_of_ne_zero hp) vehicleCount 0 k

/-- Claim C5: `calculate` is non-decreasing in `trackProgress` (for
non-negative progress, all other telemetry held fixed), never returns a
negative value, and returns exactly 0 for an agent with zero progress and
maximal center deviation (all other accumulators zero). -/
theorem claim_C5_calculate_monotone_nonneg_zero (v : VehicleStats) (p p' : ℝ)
    (hp : 0 ≤ p) (hpp : p ≤ p') :
    calculate { v with trackProgress := p } ≤ calculate { v with trackProgress := p' } ∧
    (∀ w : VehicleStats, 0 ≤ calculate w) ∧
    calculate zeroFitStats = 0 := by
  refine ⟨?_, fun w => le_max_left 0 _, ?_⟩
  · have hprog : p ^ (1.5 : ℝ) * FITNESS_WEIGHTS.trackProgress ≤
        p' ^ (1.5 : ℝ) * FITNESS_WEIGHTS.trackProgress := by
      have h := Real.rpow_le_rpow hp hpp (by norm_num : (0 : ℝ) ≤ 1.5)
      have hw : (0 : ℝ) ≤ FITNESS_WEIGHTS.trackProgress := by norm_num [FITNESS_WEIGHTS]
      exact mul_le_mul_of_nonneg_right h hw
    unfold calculate
    simp only
    exact max_le_max (le_refl 0) (by linarith)
  · have hrp : (0 : ℝ) ^ (1.5 : ℝ) = 0 := Real.zero_rpow (by norm_num)
    norm_num [calculate, zeroFitStats, FITNESS_WEIGHTS, hrp]

theorem claim_C5_witness :
    0 ≤ (0 : ℝ) ∧ (0 : ℝ) ≤ 1 ∧
    (calculate { freshStats with trackProgress := 0 } ≤
        calculate { freshStats with trackProgress := 1 } ∧
      (∀ w : VehicleStats, 0 ≤ calculate w) ∧
      calculate zeroFitStats = 0) := by
  have h1 : 0 ≤ (0 : ℝ) := le_refl 0
  have h2 : (0 : ℝ) ≤ 1 := by norm_num
  exact ⟨h1, h2, claim_C5_calculate_monotone_nonneg_zero freshStats 0 1 h1 h2⟩

theorem max_clamp_sub_lt {B pen : ℝ} (hB : 0 < max 0 B) (hpen : 0 < pen) :
    max 0 (B - pen) < max 0 B := by
  have hB' : 0 < B := by
    rcases lt_max_iff.mp hB with h | h
    · exact absurd h (lt_irrefl 0)
    · exact h
  rw [max_eq_right hB'.le]
  exact max_lt hB' (by linarith)

/-- Claim C7 counterexample: an agent with `framesWithoutProgress = 180`
(≥ 180, as the claim demands) and otherwise all-zero telemetry has fitness
*equal* to, not strictly lower than, its counterpart with
`framesWithoutProgress = 0`: the penalty guard is the strict comparison
`framesWithoutProgress > 180`, so it contributes nothing at exactly 180. -/
theorem claim_C7_counterexample :
    (180 : ℝ) ≤ ({ freshStats with framesWithoutProgress := 180 } :
        VehicleStats).framesWithoutProgress ∧
    ¬ calculate { freshStats with framesWithoutProgress := 180 } <
        calculate { freshStats with framesWithoutProgress := 0 } := by
  constructor
  · norm_num
  · have heq : calculate { freshStats with framesWithoutProgress := 180 } =
        calculate { freshStats with framesWithoutProgress := 0 } := by
      norm_num [calculate, freshStats]
    exact not_lt.mpr heq.ge

/-- Claim C7 (amended): an agent with `framesWithoutProgress` strictly above
the 180-frame threshold has strictly lower fitness than the otherwise
identical agent with `framesWithoutProgress = 0`, provided the latter's
fitness is positive (when both fitnesses are clamped to 0 they are equal). -/
theorem claim_C7_stagnation_strictly_lowers (v : VehicleStats) (n : ℝ)
    (hn : 180 < n)
    (hpos : 0 < calculate { v with framesWithoutProgress := 0 }) :
    calculate { v with framesWithoutProgress := n } <
      calculate { v with framesWithoutProgress := 0 } := by
  have hpen : 0 < ((n - 180) / 60) ^ 2 * 500 := by
    have h1 : (0 : ℝ) < (n - 180) / 60 := by
      apply div_pos (by linarith) (by norm_num)
    exact mul_pos (pow_pos h1 2) (by norm_num)
  unfold calculate at hpos ⊢
  simp only at hpos ⊢
  rw [if_pos hn]
  rw [if_neg (by norm_num : ¬ (180 : ℝ) < 0), sub_zero] at hpos ⊢
  exact max_clamp_sub_lt hpos hpen

theorem claim_C7_witness :
    (180 : ℝ) < 240 ∧
    0 < calculate { freshStats with framesWithoutProgress := 0 } ∧
    calculate { freshStats with framesWithoutProgress := 240 } <
      calculate { freshStats with framesWithoutProgress := 0 } := by
  have h1 : (180 : ℝ) < 240 := by norm_num
  have h2 : 0 < calculate { freshStats with framesWithoutProgress := 0 } := by
    have hrp : (0 : ℝ) ^ (1.5 : ℝ) = 0 := Real.zero_rpow (by norm_num)
    norm_num [calculate, freshStats, FITNESS_WEIGHTS, hrp]
  exact ⟨h1, h2, claim_C7_stagnation_strictly_lowers freshStats 240 h1 h2⟩

/-- Claim C8: in `updateTrackProgress`, `lapsCompleted` is incremented exactly
when the nearest waypoint index falls in the first 10% of the path length
while the agent's track progress was already beyond 90% of the path length. -/
theorem claim_C8_lap_detection (v : VehicleStats) (pos : Pt) (angvelRaw : ℝ)
    (path : List Pt) (hne : path ≠ []) :
    ((updateTrackProgress v pos angvelRaw path).lapsCompleted = v.lapsCompleted + 1 ↔
      (v.trackProgress > (path.length : ℝ) * 0.9 ∧
        ((nearestScan pos path).2 : ℝ) < (path.length : ℝ) * 0.1)) ∧
    ((updateTrackProgress v pos angvelRaw path).lapsCompleted = v.lapsCompleted ↔
      ¬ (v.trackProgress > (path.length : ℝ) * 0.9 ∧
        ((nearestScan pos path).2 : ℝ) < (path.length : ℝ) * 0.1)) := by
  have hlen : ¬ path.length = 0 := by
    simpa [List.length_eq_zero] using hne
  unfold updateTrackProgress
  rw [if_neg hlen]
  simp only
  by_cases hcond : (v.trackProgress > (path.length : ℝ) * 0.9 ∧
      ((nearestScan pos path).2 : ℝ) < (path.length : ℝ) * 0.1)
  · rw [if_pos hcond]
    have hfalse : ¬ (v.lapsCompleted + 1 = v.lapsCompleted) := fun h => by linarith
    exact ⟨⟨fun _ => hcond, fun _ => rfl⟩,
      ⟨fun h => absurd h hfalse, fun h => absurd hcond h⟩⟩
  · rw [if_neg hcond]
    have hfalse : ¬ (v.lapsCompleted = v.lapsCompleted + 1) := fun h => by linarith
    exact ⟨⟨fun h => absurd h hfalse, fun h => absurd h hcond⟩,
      ⟨fun _ => hcond, fun _ => rfl⟩⟩

theorem claim_C8_witness :
    ([(⟨0, 0⟩ : Pt)] : List Pt) ≠ [] ∧
    (((updateTrackProgress freshStats ⟨0, 0⟩ 0 [⟨0, 0⟩]).lapsCompleted =
        freshStats.lapsCompleted + 1 ↔
      (freshStats.trackProgress > (([(⟨0, 0⟩ : Pt)] : List Pt).length : ℝ) * 0.9 ∧
        ((nearestScan ⟨0, 0⟩ [⟨0, 0⟩]).2 : ℝ) <
          (([(⟨0, 0⟩ : Pt)] : List Pt).length : ℝ) * 0.1)) ∧
    ((updateTrackProgress freshStats ⟨0, 0⟩ 0 [⟨0, 0⟩]).lapsCompleted =
        freshStats.lapsCompleted ↔
      ¬ (freshStats.trackProgress > (([(⟨0, 0⟩ : Pt)] : List Pt).length : ℝ) * 0.9 ∧
        ((nearestScan ⟨0, 0⟩ [⟨0, 0⟩]).2 : ℝ) <
          (([(⟨0, 0⟩ : Pt)] : List Pt).length : ℝ) * 0.1))) := by
  have hne : ([(⟨0, 0⟩ : Pt)] : List Pt) ≠ [] := by simp
  exact ⟨hne, claim_C8_lap_detection freshStats ⟨0, 0⟩ 0 [⟨0, 0⟩] hne⟩

/-- Claim C10: `isPointOnTrack` reports `false` for every query point whenever
the dense path has fewer than 2 vertices — the guard at the top of the
function — rather than failing or reporting the point on-track. -/
theorem claim_C10_short_path_false (path : List Pt) (trackWidth x y : ℝ)
    (h : path.length < 2) : isPointOnTrack path trackWidth x y = false := by
  unfold isPointOnTrack
  rw [if_pos h]

theorem claim_C10_witness :
    ([] : List Pt).length < 2 ∧ isPointOnTrack [] 5 3 4 = false :=
  ⟨by simp, claim_C10_short_path_false [] 5 3 4 (by simp)⟩

/-- Claim C6: in the running play mode (`simulationRunning`, not editing), a
tick of `World.update` ends the generation (calls `nextGeneration`) iff at
least one of the four conditions holds at that tick: the generation timer has
reached the configured max duration; no agent is alive; the time since the
population's best fitness last improved exceeds the 15-second no-improvement
timeout; or the fraction of agents alive is at or below 25%. -/
theorem claim_C6_generation_end_iff (s : WorldState) (vehicles : List (Bool × ℝ))
    (hrun : s.simulationRunning = true) (hedit : s.isEditing = false) :
    ((worldTick s vehicles).2 = true ↔
      (s.generationTime ≤ s.generationTimer + 1 / 60 ∨
        aliveCount vehicles = 0 ∨
        NO_IMPROVEMENT_TIMEOUT <
          (s.generationTimer + 1 / 60) -
            (worldTick s vehicles).1.lastImprovementTime ∨
        (aliveCount vehicles : ℝ) / (s.vehicleCount : ℝ) ≤ 0.25)) := by
  unfold worldTick
  rw [hrun, hedit]
  rw [if_neg (by simp : ¬ (true = false)), if_neg (by simp : ¬ (false = true))]
  rw [show ∀ c : Prop, ∀ inst : Decidable c, (@ite Bool c inst true false = true) = c
      from fun c inst => by by_cases h : c <;> simp [h]]
  tauto

theorem claim_C6_witness :
    worldEx.simulationRunning = true ∧ worldEx.isEditing = false ∧
    ((worldTick worldEx [(true, 0)]).2 = true ↔
      (worldEx.generationTime ≤ worldEx.generationTimer + 1 / 60 ∨
        aliveCount [(true, 0)] = 0 ∨
        NO_IMPROVEMENT_TIMEOUT <
          (worldEx.generationTimer + 1 / 60) -
            (worldTick worldEx [(true, 0)]).1.lastImprovementTime ∨
        (aliveCount [(true, 0)] : ℝ) / (worldEx.vehicleCount : ℝ) ≤ 0.25)) :=
  ⟨rfl, rfl, claim_C6_generation_end_iff worldEx [(true, 0)] rfl rfl⟩

theorem onTrackAux_true_iff (limitSq x y : ℝ) :
    ∀ (segs : List (Pt × Pt)) (minSq : ℝ),
      onTrackAux limitSq x y segs minSq = true ↔
        (minSq ≤ limitSq ∨ ∃ s ∈ segs, segL2 s ≠ 0 ∧ segSqDist x y s ≤ limitSq) := by
  intro segs
  induction segs with
  | nil =>
    intro minSq
    simp only [onTrackAux, List.not_mem_nil, false_and, exists_false, or_false]
    split
    · simp_all
    · simp_all
  | cons s rest ih =>
    intro minSq
    by_cases h0 : segL2 s = 0
    · rw [onTrackAux, if_pos h0, ih]
      constructor
      · rintro (h | ⟨s', hs', hp⟩)
        · exact Or.inl h
        · exact Or.inr ⟨s', List.mem_cons_of_mem _ hs', hp⟩
      · rintro (h | ⟨s', hs', hne, hle⟩)
        · exact Or.inl h
        · rcases List.mem_cons.mp hs' with rfl | hmem
          · exact absurd h0 hne
          · exact Or.inr ⟨s', hmem, hne, hle⟩
    · rw [onTrackAux, if_neg h0]
      simp only
      by_cases hexit :
          (if segSqDist x y s < minSq then segSqDist x y s else minSq) ≤ limitSq
      · rw [if_pos hexit]
        constructor
        · intro _
          by_cases hlt : segSqDist x y s < minSq
          · rw [if_pos hlt] at hexit
            exact Or.inr ⟨s, List.mem_cons_self _ _, h0, hexit⟩
          · rw [if_neg hlt] at hexit
            exact Or.inl hexit
        · intro _
          rfl
      · rw [if_neg hexit, ih]
        have hboth : ¬ segSqDist x y s ≤ limitSq ∧ ¬ minSq ≤ limitSq := by
          by_cases hlt : segSqDist x y s < minSq
          · rw [if_pos hlt] at hexit
            exact ⟨hexit, fun h => hexit (le_trans hlt.le h)⟩
          · rw [if_neg hlt] at hexit
            exact ⟨fun h => hexit (le_trans (not_lt.mp hlt) h), hexit⟩
        constructor
        · rintro (h | ⟨s', hs', hp⟩)
          · exact absurd h hexit
          · exact Or.inr ⟨s', List.mem_cons_of_mem _ hs', hp⟩
        · rintro (h | ⟨s', hs', hne, hle⟩)
          · exact absurd h hboth.2
          · rcases List.mem_cons.mp hs' with rfl | hmem
            · exact absurd hle hboth.1
            · exact Or.inr ⟨s', hmem, hne, hle⟩

/-- Claim C9 counterexample: on the length-2 path whose two vertices coincide
at the origin, the query point `(0, 0)` lies on the centerline and has
point-to-segment squared distance 0 ≤ (trackWidth/2)² to every segment, yet
`isPointOnTrack` returns `false`: both segments have zero squared length and
the loop `continue`s past them without ever updating the running minimum. -/
theorem claim_C9_counterexample :
    isPointOnTrack [(⟨0, 0⟩ : Pt), ⟨0, 0⟩] 10 0 0 = false ∧
    specMinSqDist 0 0 [(⟨0, 0⟩ : Pt), ⟨0, 0⟩] ≤ (10 / 2) * (10 / 2) := by
  constructor
  · have hlen : ¬ ([(⟨0, 0⟩ : Pt), ⟨0, 0⟩] : List Pt).length < 2 := by simp
    rw [isPointOnTrack, if_neg hlen]
    norm_num [segsOf, List.range_succ, onTrackAux, segL2, MAX_VALUE]
  · norm_num [specMinSqDist, segsOf, List.range_succ, specSegSqDist, segL2, MAX_VALUE]

/-- Claim C9 (amended): for every path with at least 2 vertices and a track
width with `(trackWidth/2)²` below `Number.MAX_VALUE`, `isPointOnTrack(x, y)`
returns true iff some *positive-length* path segment has clamped
point-to-segment squared distance at most `(trackWidth/2)²`; zero-length
segments are skipped, so a path all of whose segments are degenerate yields
`false` even for a point on the path. -/
theorem claim_C9_isPointOnTrack_iff (path : List Pt) (trackWidth x y : ℝ)
    (hlen : 2 ≤ path.length)
    (hW : (trackWidth / 2) * (trackWidth / 2) < MAX_VALUE) :
    (isPointOnTrack path trackWidth x y = true ↔
      ∃ s ∈ segsOf path, segL2 s ≠ 0 ∧
        segSqDist x y s ≤ (trackWidth / 2) * (trackWidth / 2)) := by
  rw [isPointOnTrack, if_neg (by omega : ¬ path.length < 2),
    onTrackAux_true_iff]
  constructor
  · rintro (h | h)
    · exact absurd h (not_le.mpr hW)
    · exact h
  · exact Or.inr

theorem claim_C9_witness :
    2 ≤ ([(⟨0, 0⟩ : Pt), ⟨1, 0⟩] : List Pt).length ∧
    ((1 : ℝ) / 2) * ((1 : ℝ) / 2) < MAX_VALUE ∧
    (isPointOnTrack [(⟨0, 0⟩ : Pt), ⟨1, 0⟩] 1 0 0 = true ↔
      ∃ s ∈ segsOf [(⟨0, 0⟩ : Pt), ⟨1, 0⟩], segL2 s ≠ 0 ∧
        segSqDist 0 0 s ≤ ((1 : ℝ) / 2) * ((1 : ℝ) / 2)) := by
  have h1 : 2 ≤ ([(⟨0, 0⟩ : Pt), ⟨1, 0⟩] : List Pt).length := by simp
  have h2 : ((1 : ℝ) / 2) * ((1 : ℝ) / 2) < MAX_VALUE := by norm_num [MAX_VALUE]
  exact ⟨h1, h2, claim_C9_isPointOnTrack_iff [⟨0, 0⟩, ⟨1, 0⟩] 1 0 0 h1 h2⟩

theorem claim_C2_witness :
    (∀ n : ℕ, 0 ≤ (fun _ : ℕ => (0 : ℝ)) n ∧ (fun _ : ℕ => (0 : ℝ)) n < 1) ∧
    (([] : List Brain) = [] ∨ 15 ≤ ([] : List Brain).length) ∧
    ∃ l k', spawnGeneration 50 15 (1 / 10 : ℝ) [] (fun _ => 0) 0 =
        some (l, k') ∧ l.length = 50 := by
  have hr : ∀ n : ℕ, 0 ≤ (fun _ : ℕ => (0 : ℝ)) n ∧ (fun _ : ℕ => (0 : ℝ)) n < 1 :=
    fun _ => ⟨le_refl 0, by norm_num⟩
  have hE : ([] : List Brain) = [] ∨ 15 ≤ ([] : List Brain).length := Or.inl rfl
  exact ⟨hr, hE, claim_C2_spawn_population_size 50 15 (1 / 10) [] (fun _ => 0) 0 hr hE⟩

